import Mathlib

/-!
Verification of the django-approval moderation engine
(`source/approval/models/monitoring.py` and
`source/approval/listeners/monitored.py`), shallowly embedded in Lean.

Model:
* A Python object's attribute map / a JSON object is a `Dict`:
  an association list from attribute name to `Value`, without duplicate
  keys in practice.  `dget` is `getattr`/`dict.__getitem__` (returning
  `none` for `AttributeError`/`KeyError`), `dset` is `setattr`/item
  assignment (replace in place, else append — Python insertion order),
  `dhas` is `hasattr`/`in`.
* Django's per-field validation (`Model.clean_fields`) is abstracted by a
  predicate `clean : String → Value → Bool`; the keys of the raised
  `ValidationError.message_dict` are the entity's fields whose current
  value fails `clean`, in field order (`invalidFields`).
* Functions that can raise an uncaught exception (`AttributeError` on a
  vanished attribute, `KeyError` on a missing dict key, `IndexError` on
  `authors[0]`) return `Option`, with `none` for the uncaught exception.
-/

namespace Approval

/-- A field/JSON value. -/
inductive Value where
  | str : String → Value
  | int : Int → Value
  | bool : Bool → Value
deriving DecidableEq, Repr

/-- An attribute map (Python object attributes / JSON object / dict). -/
abbrev Dict := List (String × Value)

/-- `getattr` / dict lookup: first binding of the key, `none` if absent. -/
def dget : Dict → String → Option Value
  | [], _ => none
  | (k', v) :: t, k => if k' = k then some v else dget t k

/-- `setattr` / dict item assignment: replace the binding in place,
append when the key is absent (Python insertion order). -/
def dset : Dict → String → Value → Dict
  | [], k, v => [(k, v)]
  | (k', v') :: t, k, v => if k' = k then (k', v) :: t else (k', v') :: dset t k v

/-- `hasattr` / `in`. -/
def dhas (d : Dict) (k : String) : Bool :=
  (dget d k).isSome

/-- The key list of a dict, in order. -/
def keysOf (d : Dict) : List String :=
  d.map Prod.fst

/-- A user, reduced to what the engine inspects: `has_perm` on the
moderation permission of the monitored type, and `is_staff`. -/
structure User where
  canModerate : Bool
  is_staff : Bool
deriving DecidableEq, Repr

/-- The static per-type configuration declared on the `Sandbox` subclass
(`approval_fields`, `approval_store_fields`, `approval_default`,
`auto_approve_staff`, `auto_approve_new`). -/
structure Config where
  approval_fields : List String
  approval_store_fields : List String
  approval_default : Dict
  auto_approve_staff : Bool
  auto_approve_new : Bool
deriving DecidableEq, Repr

/-- One row of the dynamic sandbox model (`DynamicSandbox`):
`sandbox["fields"]`, `sandbox["store"]`, `approved` (None = pending),
`moderator`, `draft`, `approval_date`, `info`. -/
structure Record where
  sandboxFields : Dict
  sandboxStore : Dict
  approved : Option Bool
  moderator : Option User
  draft : Bool
  approval_date : Option Nat
  info : String
deriving DecidableEq, Repr

/-- The state a lifecycle hook sees: the in-memory source instance
(`mem`), its persisted row (`db`, `none` before the first save, so
`pk is None` iff `db = none`), the sandbox record, and the hidden
`_ignore_approval` marker on the instance. -/
structure State where
  mem : Dict
  db : Option Dict
  record : Record
  ignoreApproval : Bool
deriving DecidableEq, Repr

/-- `{k: getattr(source, k) for k in fields if hasattr(source, k)}`
(the dict comprehensions in `_update_sandbox`). -/
def collectPresent (src : Dict) : List String → Dict
  | [] => []
  | k :: rest =>
    match dget src k with
    | some v => (k, v) :: collectPresent src rest
    | none => collectPresent src rest

/-- `_update_sandbox` with the default slot: copy the monitored field
values of `src` into `sandbox["fields"]`, the store field values into
`sandbox["store"]`, and mark the record pending (`approved = None`). -/
def updateSandbox (cfg : Config) (rec : Record) (src : Dict) : Record :=
  { rec with
    sandboxFields := collectPresent src cfg.approval_fields
    sandboxStore := collectPresent src cfg.approval_store_fields
    approved := none }

/-- The merge loops of `_update_source` over one sandbox slot:
for each staged pair, `original[field] = getattr(self.source, field)`
then `setattr(self.source, field, stagedvalue)`.  `none` models the
uncaught `AttributeError` when a staged key is not an attribute of the
source. -/
def mergeSlot : Dict → Dict → Dict → Option (Dict × Dict)
  | src, orig, [] => some (src, orig)
  | src, orig, (k, v) :: rest =>
    match dget src k with
    | none => none
    | some cur => mergeSlot (dset src k v) (dset orig k cur) rest

/-- The default-values loop of `_update_source`:
`setattr(self.source, field, self.approval_default[field])`. -/
def applyDefaults (src : Dict) : Dict → Dict
  | [] => src
  | (k, v) :: rest => applyDefaults (dset src k v) rest

/-- The keys of `ValidationError.message_dict` raised by
`source.clean_fields()`: the entity's fields whose current value fails
per-field validation, in field order. -/
def invalidFields (clean : String → Value → Bool) (e : Dict) : List String :=
  (e.filter fun p => !(clean p.1 p.2)).map Prod.fst

/-- The `except ValidationError` restore loop of `_update_source`:
for each key of `message_dict`, if `hasattr(self.source, key)` then
`setattr(self.source, key, original[key])`.  `none` models the uncaught
`KeyError` when `original` has no entry for the key. -/
def restoreFields : Dict → Dict → List String → Option Dict
  | src, _, [] => some src
  | src, orig, k :: rest =>
    if dhas src k then
      match dget orig k with
      | none => none
      | some ov => restoreFields (dset src k ov) orig rest
    else restoreFields src orig rest

/-- The first half of `_update_source`: build `original` while writing
the staged values (both slots, in order) — or the configured defaults,
with `original` left empty — into the source. -/
def mergeStep (cfg : Config) (rec : Record) (defaultFlag : Bool) (mem : Dict) :
    Option (Dict × Dict) :=
  if defaultFlag then
    some (applyDefaults mem cfg.approval_default, [])
  else
    match mergeSlot mem [] rec.sandboxFields with
    | none => none
    | some (m1, o1) => mergeSlot m1 o1 rec.sandboxStore

/-- `_update_source(default=..., save=...)`.  Returns the new in-memory
source, the new persisted row, and the method's boolean return value;
`none` models an uncaught exception.  Mirrors the Python control flow:
build `original` while writing staged (or default) values into the
source, run field validation, and on failure restore each reported field
from `original`; with `save=True` the source is persisted (with the
`_ignore_approval` marker set) in both the success and failure branch. -/
def updateSource (clean : String → Value → Bool) (cfg : Config) (rec : Record)
    (defaultFlag save : Bool) (mem : Dict) (db : Option Dict) :
    Option (Dict × Option Dict × Bool) :=
  match mergeStep cfg rec defaultFlag mem with
  | none => none
  | some (merged, orig) =>
    if invalidFields clean merged = [] then
      some (merged, if save then some merged else db, true)
    else
      match restoreFields merged orig (invalidFields clean merged) with
      | none => none
      | some restored => some (restored, if save then some restored else db, false)

/-- The dict comprehension of `_get_diff`:
`{field: getattr(self.source, field) for field in self._get_field_names()}`.
`none` models the `AttributeError` when a configured monitored field is
no longer an attribute of the source. -/
def collectFields (src : Dict) : List String → Option Dict
  | [] => some []
  | k :: rest =>
    match dget src k with
    | none => none
    | some v =>
      match collectFields src rest with
      | none => none
      | some d => some ((k, v) :: d)

/-- The list comprehension of `_get_diff`:
`[key for key in data.keys() if data[key] != source_data[key]]`.
`none` models the `KeyError` when a staged key is missing from
`source_data` (i.e. is not a configured monitored field). -/
def diffKeys (sd : Dict) : Dict → Option (List String)
  | [] => some []
  | (k, v) :: rest =>
    match dget sd k with
    | none => none
    | some sv =>
      match diffKeys sd rest with
      | none => none
      | some ks => some (if v ≠ sv then k :: ks else ks)

/-- `_get_diff`.  `some l` is the Python return value (`l = []` standing
for Python's `None`, by `... or None`); `none` is an uncaught
exception. -/
def getDiff (cfg : Config) (rec : Record) (mem : Dict) : Option (List String) :=
  match collectFields mem cfg.approval_fields with
  | none => none
  | some sd => diffKeys sd rec.sandboxFields

/-- `_needs_approval`: `self._get_diff() is not None`, i.e. the diff list
is non-empty. -/
def needsApproval (cfg : Config) (rec : Record) (mem : Dict) : Option Bool :=
  (getDiff cfg rec mem).map fun l => !l.isEmpty

/-- `_get_valid_fields`: the configured monitored fields that are still
fields of the source model.  (Defined by the code but never called by
`_update_source` or `_get_diff`.) -/
def getValidFields (cfg : Config) (mem : Dict) : List String :=
  cfg.approval_fields.filter fun k => dhas mem k

/-- The success message `approve` writes into `info`. -/
def successInfo : String :=
  "Congratulations, your edits have been approved."

/-- The default refusal message `deny` writes into `info`. -/
def refusalInfo : String :=
  "Your edits have been refused."

/-- The record-metadata assignments at the top of `approve`: decision
date, approved status, moderator, draft cleared, success message. -/
def approveStamp (now : Nat) (user : Option User) (r : Record) : Record :=
  { r with
    approval_date := some now
    approved := some true
    moderator := user
    draft := false
    info := successInfo }

/-- `approve(user=..., save=...)`: stamp the record as approved, then
`_update_source(save=True)`.  `none` models an exception escaping
`_update_source`. -/
def approve (clean : String → Value → Bool) (cfg : Config) (now : Nat)
    (user : Option User) (saveRec : Bool) (st : State) : Option State :=
  match updateSource clean cfg (approveStamp now user st.record) false true st.mem st.db with
  | none => none
  | some (mem', db', _) =>
    some { mem := mem', db := db', record := approveStamp now user st.record,
           ignoreApproval := true }

/-- `deny(user=..., reason=..., save=...)`: stamp the record as denied;
`info` is `reason or <default refusal message>` (Python truthiness: an
empty string also falls back to the default).  The source instance and
its persisted row are untouched. -/
def deny (user : Option User) (reason : Option String) (saveRec : Bool)
    (st : State) : State :=
  { st with
    record :=
      { st.record with
        moderator := user
        approved := some false
        draft := false
        info :=
          match reason with
          | some r => if r = "" then refusalInfo else r
          | none => refusalInfo } }

/-- `self.approve(user=authors[0], save=True)`: `none` models the
`IndexError` on an empty author list. -/
def approveFirst (clean : String → Value → Bool) (cfg : Config) (now : Nat)
    (authors : List User) (st : State) : Option State :=
  match authors with
  | [] => none
  | a :: _ => approve clean cfg now (some a) true st

/-- `_auto_process_approval(authors=..., update=...)`: evaluate
`authorized` and `optional = not self._needs_approval()`, approve when
`authorized or optional or (auto_approve_new and not update)`, then
approve again when `auto_approve_staff` and some author is staff.  The
overridable `auto_process_approval` callback is the default no-op.
`none` models an uncaught exception (`_get_diff` failing, `authors[0]`
on an empty list, or `approve` failing). -/
def autoProcess (clean : String → Value → Bool) (cfg : Config) (now : Nat)
    (authors : List User) (update : Bool) (st : State) : Option State :=
  match needsApproval cfg st.record st.mem with
  | none => none
  | some needs =>
    match (if (authors.any fun u => u.canModerate) || !needs ||
              (cfg.auto_approve_new && !update) then
             approveFirst clean cfg now authors st
           else some st) with
    | none => none
    | some st1 =>
      if cfg.auto_approve_staff && authors.any (fun u => u.is_staff) then
        approveFirst clean cfg now authors st1
      else some st1

/-- The staging portion of the pre-save hook on an already persisted
instance: `instance.approval._update_sandbox()` (from the in-memory
values about to be written) followed by `instance._revert()`
(`refresh_from_db`, restoring the persisted values `dbv`). -/
def stageAndRevert (cfg : Config) (st : State) (dbv : Dict) : State :=
  { st with record := updateSandbox cfg st.record st.mem, mem := dbv }

/-- The `pre_save` listener `before_save`: skipped entirely when
`_ignore_approval` is set or the instance has no primary key yet;
otherwise stage the pending values, revert the instance, and run the
auto-approval policy with `update=True`. -/
def beforeSave (clean : String → Value → Bool) (cfg : Config) (now : Nat)
    (authors : List User) (st : State) : Option State :=
  if st.ignoreApproval then some st
  else
    match st.db with
    | none => some st
    | some dbv => autoProcess clean cfg now authors true (stageAndRevert cfg st dbv)

/-- The `post_save` listener `after_save`: skipped entirely when
`_ignore_approval` is set or the save is not a creation; otherwise
initialize the sandbox from the just-saved values, overwrite the source
with the configured defaults (`_update_source(default=True, save=True)`),
and run the auto-approval policy with `update=False`. -/
def afterSave (clean : String → Value → Bool) (cfg : Config) (now : Nat)
    (authors : List User) (created : Bool) (st : State) : Option State :=
  if st.ignoreApproval then some st
  else if created then
    let st1 : State := { st with record := updateSandbox cfg st.record st.mem }
    match updateSource clean cfg st1.record true true st1.mem st1.db with
    | none => none
    | some (mem', db', _) =>
      autoProcess clean cfg now authors false
        { st1 with mem := mem', db := db', ignoreApproval := true }
  else some st

/-- Modelled from the spec (§4.2 DiffEngine), for comparison with the
code's `_get_diff`: the staged field names that are also attributes of
the entity and whose staged value differs from the persisted value;
staged names outside the current schema are ignored. -/
def specDiff (rec : Record) (mem : Dict) : List String :=
  (rec.sandboxFields.filter fun p => dhas mem p.1 && decide (dget mem p.1 ≠ some p.2)).map Prod.fst

/-- Proof-side specification: the value the merge loop leaves in a key,
i.e. the value of the key's last occurrence in the staged pair list. -/
def stagedVal : Dict → String → Option Value
  | [], _ => none
  | (k0, v0) :: rest, k =>
    match stagedVal rest k with
    | some v => some v
    | none => if k0 = k then some v0 else none

/-- Proof-side specification: the value the merge loop leaves in
`original` for a key — the source's value just before the key's last
staged write, threading the intermediate `setattr`s. -/
def origSpec : Dict → Dict → String → Option Value
  | [], _, _ => none
  | (k0, v0) :: rest, src, k =>
    match origSpec rest (dset src k0 v0) k with
    | some v => some v
    | none => if k0 = k then dget src k else none

/-- The set of field names rejected during a (non-default) merge:
the keys of the `ValidationError.message_dict` that `_update_source`
catches, i.e. the invalid fields of the fully merged entity.  The code
logs these names but returns only a boolean. -/
def rejectedFields (clean : String → Value → Bool) (cfg : Config) (rec : Record)
    (mem : Dict) : Option (List String) :=
  (mergeStep cfg rec false mem).map fun p => invalidFields clean p.1

/-- A validator accepting every value. -/
def cleanAll : String → Value → Bool := fun _ _ => true

/-- A validator rejecting exactly the integer value 0, in any field. -/
def cleanNoZero : String → Value → Bool := fun _ v => !(v = Value.int 0)

/-- A fresh, empty sandbox record. -/
def recEmpty : Record :=
  { sandboxFields := [], sandboxStore := [], approved := none, moderator := none,
    draft := true, approval_date := none, info := "" }

/-- A concrete two-field entity: `a = 2`, `b = 2`. -/
def memAB : Dict := [("a", Value.int 2), ("b", Value.int 2)]

/-- A concrete configuration monitoring `a` and `b`. -/
def cfgAB : Config :=
  { approval_fields := ["a", "b"], approval_store_fields := [],
    approval_default := [], auto_approve_staff := false, auto_approve_new := false }

/-- A record staging an invalid `a` (0) and a valid `b` (1). -/
def recA : Record :=
  { recEmpty with sandboxFields := [("a", Value.int 0), ("b", Value.int 1)] }

/-- A record staging a valid `a` (1) and an invalid `b` (0). -/
def recB : Record :=
  { recEmpty with sandboxFields := [("a", Value.int 1), ("b", Value.int 0)] }

/-! ### Basic dictionary lemmas -/

theorem dget_dset_self (d : Dict) (k : String) (v : Value) :
    dget (dset d k v) k = some v := by
  induction d with
  | nil => simp [dset, dget]
  | cons p t ih =>
    obtain ⟨k', v'⟩ := p
    by_cases h : k' = k
    · subst h; simp [dset, dget]
    · simp [dset, dget, h, ih]

theorem dget_dset_ne (d : Dict) (k k' : String) (v : Value) (h : k ≠ k') :
    dget (dset d k v) k' = dget d k' := by
  induction d with
  | nil => simp [dset, dget, h]
  | cons p t ih =>
    obtain ⟨k0, v0⟩ := p
    by_cases h0 : k0 = k
    · subst h0; simp [dset, dget, h]
    · simp only [dset, if_neg h0, dget]
      by_cases h1 : k0 = k'
      · simp [h1]
      · simp [h1, ih]

theorem dhas_of_pair_mem {e : Dict} {k : String} {v : Value} (h : (k, v) ∈ e) :
    dhas e k = true := by
  induction e with
  | nil => simp at h
  | cons p t ih =>
    obtain ⟨k0, v0⟩ := p
    rcases List.mem_cons.mp h with heq | htail
    · rw [Prod.mk.injEq] at heq
      obtain ⟨rfl, rfl⟩ := heq
      simp [dhas, dget]
    · by_cases h0 : k0 = k
      · simp [dhas, dget, h0]
      · have := ih htail
        simp only [dhas, dget, if_neg h0] at this ⊢
        exact this

theorem dhas_of_mem_invalid (clean : String → Value → Bool) (e : Dict) (k : String)
    (h : k ∈ invalidFields clean e) : dhas e k = true := by
  unfold invalidFields at h
  obtain ⟨⟨k1, v1⟩, hmem, hk⟩ := List.mem_map.mp h
  cases hk
  exact dhas_of_pair_mem (List.mem_of_mem_filter hmem)

theorem collectPresent_dget (src : Dict) (fl : List String) (f : String) (v : Value)
    (hf : f ∈ fl) (hv : dget src f = some v) :
    dget (collectPresent src fl) f = some v := by
  induction fl with
  | nil => simp at hf
  | cons k rest ih =>
    rcases List.mem_cons.mp hf with h | h
    · subst h
      simp [collectPresent, hv, dget]
    · by_cases hk : k = f
      · subst hk; simp [collectPresent, hv, dget]
      · cases hd : dget src k with
        | some w => simp [collectPresent, hd, dget, hk, ih h]
        | none => simp [collectPresent, hd, ih h]

theorem dhas_dset_self (d : Dict) (k : String) (v : Value) :
    dhas (dset d k v) k = true := by
  simp [dhas, dget_dset_self]

theorem dhas_dset_ne (d : Dict) (k k' : String) (v : Value) (h : k ≠ k') :
    dhas (dset d k v) k' = dhas d k' := by
  simp [dhas, dget_dset_ne _ _ _ _ h]

theorem dhas_dset_of_dhas (d : Dict) (k k' : String) (v : Value)
    (hk : dhas d k = true) : dhas (dset d k v) k' = dhas d k' := by
  by_cases he : k = k'
  · subst he; simp [dhas_dset_self, hk]
  · exact dhas_dset_ne d k k' v he

theorem keysOf_dset_of_dhas (d : Dict) (k : String) (v : Value)
    (h : dhas d k = true) : keysOf (dset d k v) = keysOf d := by
  induction d with
  | nil => simp [dhas, dget] at h
  | cons p t ih =>
    obtain ⟨k0, v0⟩ := p
    by_cases h0 : k0 = k
    · subst h0; simp [dset, keysOf]
    · simp only [dset, if_neg h0, keysOf, List.map_cons]
      simp only [dhas, dget, if_neg h0] at h
      have := ih h
      simp only [keysOf] at this
      rw [this]

theorem dhas_iff_mem_keysOf (d : Dict) (k : String) :
    dhas d k = true ↔ k ∈ keysOf d := by
  induction d with
  | nil => simp [dhas, dget, keysOf]
  | cons p t ih =>
    obtain ⟨k0, v0⟩ := p
    by_cases h0 : k0 = k
    · subst h0; simp [dhas, dget, keysOf]
    · simp only [dhas, dget, if_neg h0, keysOf, List.map_cons, List.mem_cons]
      simp only [dhas, keysOf] at ih
      rw [ih]
      constructor
      · exact Or.inr
      · rintro (h | h)
        · exact absurd h.symm h0
        · exact h

theorem dget_eq_none_of_not_mem (d : Dict) (k : String) (h : k ∉ keysOf d) :
    dget d k = none := by
  cases hg : dget d k with
  | none => rfl
  | some v =>
    have hh : dhas d k = true := by simp [dhas, hg]
    exact absurd ((dhas_iff_mem_keysOf d k).mp hh) h

theorem dict_ext (d1 d2 : Dict) (hk : keysOf d1 = keysOf d2)
    (hnd : (keysOf d1).Nodup) (hp : ∀ k, dget d1 k = dget d2 k) : d1 = d2 := by
  induction d1 generalizing d2 with
  | nil =>
    cases d2 with
    | nil => rfl
    | cons p t => simp [keysOf] at hk
  | cons p t ih =>
    obtain ⟨k, v⟩ := p
    cases d2 with
    | nil => simp [keysOf] at hk
    | cons q t2 =>
      obtain ⟨k2, v2⟩ := q
      simp only [keysOf, List.map_cons, List.cons.injEq] at hk
      obtain ⟨rfl, hkt⟩ := hk
      have hv : v = v2 := by
        have := hp k
        simp [dget] at this
        exact this
      subst hv
      simp only [keysOf, List.map_cons, List.nodup_cons] at hnd
      have ht : t = t2 := by
        apply ih _ hkt hnd.2
        intro k'
        by_cases he : k' = k
        · subst he
          rw [dget_eq_none_of_not_mem t k' hnd.1,
            dget_eq_none_of_not_mem t2 k' (by rw [keysOf, ← hkt]; exact hnd.1)]
        · have hne : ¬(k = k') := fun hh => he hh.symm
          have hpk := hp k'
          simpa [dget, hne] using hpk
      rw [ht]

theorem dget_of_mem_nodup (L : Dict) (p : String × Value)
    (hnd : (keysOf L).Nodup) (hp : p ∈ L) : dget L p.1 = some p.2 := by
  induction L with
  | nil => simp at hp
  | cons q t ih =>
    obtain ⟨k0, v0⟩ := q
    simp only [keysOf, List.map_cons, List.nodup_cons] at hnd
    rcases List.mem_cons.mp hp with heq | htail
    · subst heq; simp [dget]
    · have hne : k0 ≠ p.1 := by
        intro he
        exact hnd.1 (he ▸ (List.mem_map.mpr ⟨p, htail, rfl⟩))
      simp only [dget, if_neg hne]
      exact ih hnd.2 htail

/-! ### Merge-loop characterization -/

theorem mergeSlot_append (A B : Dict) (src orig : Dict) :
    mergeSlot src orig (A ++ B) =
      match mergeSlot src orig A with
      | none => none
      | some (m, o) => mergeSlot m o B := by
  induction A generalizing src orig with
  | nil => simp [mergeSlot]
  | cons p rest ih =>
    obtain ⟨k, v⟩ := p
    simp only [List.cons_append, mergeSlot]
    cases hg : dget src k with
    | none => rfl
    | some cur => exact ih _ _

theorem mergeSlot_some_of_dhas (L : Dict) (src orig : Dict)
    (h : ∀ k ∈ keysOf L, dhas src k = true) :
    (mergeSlot src orig L).isSome = true := by
  induction L generalizing src orig with
  | nil => simp [mergeSlot]
  | cons p rest ih =>
    obtain ⟨k, v⟩ := p
    have hk : dhas src k = true := h k (by simp [keysOf])
    obtain ⟨cur, hcur⟩ := Option.isSome_iff_exists.mp hk
    simp only [mergeSlot, hcur]
    apply ih
    intro k' hk'
    rw [dhas_dset_of_dhas src k k' v hk]
    exact h k' (by simp [keysOf] at hk' ⊢; exact Or.inr hk')

theorem mergeSlot_dhas_src (L : Dict) (src orig m o : Dict)
    (h : mergeSlot src orig L = some (m, o)) :
    ∀ k ∈ keysOf L, dhas src k = true := by
  induction L generalizing src orig with
  | nil => intro k hk; simp [keysOf] at hk
  | cons p rest ih =>
    obtain ⟨k0, v0⟩ := p
    simp only [mergeSlot] at h
    cases hg : dget src k0 with
    | none => rw [hg] at h; exact absurd h (by simp)
    | some cur =>
      rw [hg] at h
      intro k hk
      simp only [keysOf, List.map_cons, List.mem_cons] at hk
      rcases hk with rfl | hk
      · simp [dhas, hg]
      · have := ih _ _ h k hk
        rw [dhas_dset_of_dhas src k0 k v0 (by simp [dhas, hg])] at this
        exact this

theorem mergeSlot_keysOf (L : Dict) (src orig m o : Dict)
    (h : mergeSlot src orig L = some (m, o)) :
    keysOf m = keysOf src := by
  induction L generalizing src orig with
  | nil =>
    simp only [mergeSlot, Option.some.injEq, Prod.mk.injEq] at h
    rw [← h.1]
  | cons p rest ih =>
    obtain ⟨k0, v0⟩ := p
    simp only [mergeSlot] at h
    cases hg : dget src k0 with
    | none => rw [hg] at h; exact absurd h (by simp)
    | some cur =>
      rw [hg] at h
      rw [ih _ _ h, keysOf_dset_of_dhas src k0 v0 (by simp [dhas, hg])]

theorem mergeSlot_dget (L : Dict) (src orig m o : Dict)
    (h : mergeSlot src orig L = some (m, o)) (k : String) :
    dget m k =
      match stagedVal L k with
      | some v => some v
      | none => dget src k := by
  induction L generalizing src orig with
  | nil =>
    simp only [mergeSlot, Option.some.injEq, Prod.mk.injEq] at h
    simp [stagedVal, ← h.1]
  | cons p rest ih =>
    obtain ⟨k0, v0⟩ := p
    simp only [mergeSlot] at h
    cases hg : dget src k0 with
    | none => rw [hg] at h; exact absurd h (by simp)
    | some cur =>
      rw [hg] at h
      have hih := ih _ _ h
      simp only [stagedVal]
      cases hs : stagedVal rest k with
      | some v => simpa [hs] using hih
      | none =>
        rw [hs] at hih
        by_cases h0 : k0 = k
        · subst h0; simpa [dget_dset_self] using hih
        · simpa [h0, dget_dset_ne src k0 k v0 h0] using hih

theorem mergeSlot_orig (L : Dict) (src orig m o : Dict)
    (h : mergeSlot src orig L = some (m, o)) (k : String) :
    dget o k =
      match origSpec L src k with
      | some v => some v
      | none => dget orig k := by
  induction L generalizing src orig with
  | nil =>
    simp only [mergeSlot, Option.some.injEq, Prod.mk.injEq] at h
    simp [origSpec, ← h.2]
  | cons p rest ih =>
    obtain ⟨k0, v0⟩ := p
    simp only [mergeSlot] at h
    cases hg : dget src k0 with
    | none => rw [hg] at h; exact absurd h (by simp)
    | some cur =>
      rw [hg] at h
      have hih := ih _ _ h
      simp only [origSpec]
      cases hs : origSpec rest (dset src k0 v0) k with
      | some v => simpa [hs] using hih
      | none =>
        rw [hs] at hih
        by_cases h0 : k0 = k
        · subst h0
          simpa [dget_dset_self, hg] using hih
        · simpa [h0, dget_dset_ne orig k0 k cur h0] using hih

theorem stagedVal_eq_none_of_not_mem (L : Dict) (k : String) (h : k ∉ keysOf L) :
    stagedVal L k = none := by
  induction L with
  | nil => rfl
  | cons p rest ih =>
    obtain ⟨k0, v0⟩ := p
    simp only [keysOf, List.map_cons, List.mem_cons, not_or] at h
    simp only [stagedVal, ih (by exact h.2)]
    rw [if_neg (fun he => h.1 he.symm)]

theorem stagedVal_isSome_of_mem (L : Dict) (k : String) (h : k ∈ keysOf L) :
    (stagedVal L k).isSome = true := by
  induction L with
  | nil => simp [keysOf] at h
  | cons p rest ih =>
    obtain ⟨k0, v0⟩ := p
    simp only [stagedVal]
    cases hs : stagedVal rest k with
    | some v => simp
    | none =>
      simp only [keysOf, List.map_cons, List.mem_cons] at h
      rcases h with rfl | h
      · simp
      · have := ih h
        rw [hs] at this
        simp at this

theorem origSpec_eq_none_of_not_mem (L : Dict) (src : Dict) (k : String)
    (h : k ∉ keysOf L) : origSpec L src k = none := by
  induction L generalizing src with
  | nil => rfl
  | cons p rest ih =>
    obtain ⟨k0, v0⟩ := p
    simp only [keysOf, List.map_cons, List.mem_cons, not_or] at h
    simp only [origSpec, ih _ (by exact h.2)]
    rw [if_neg (fun he => h.1 he.symm)]

theorem origSpec_mem_of_isSome (L : Dict) (src : Dict) (k : String)
    (h : (origSpec L src k).isSome = true) : k ∈ keysOf L := by
  by_cases hm : k ∈ keysOf L
  · exact hm
  · rw [origSpec_eq_none_of_not_mem L src k hm] at h
    simp at h

theorem origSpec_isSome (L : Dict) (src : Dict) (k : String)
    (hall : ∀ k' ∈ keysOf L, dhas src k' = true) (hk : k ∈ keysOf L) :
    (origSpec L src k).isSome = true := by
  induction L generalizing src with
  | nil => simp [keysOf] at hk
  | cons p rest ih =>
    obtain ⟨k0, v0⟩ := p
    have hk0 : dhas src k0 = true := hall k0 (by simp [keysOf])
    by_cases hr : k ∈ keysOf rest
    · have hall' : ∀ k' ∈ keysOf rest, dhas (dset src k0 v0) k' = true := by
        intro k' hk'
        rw [dhas_dset_of_dhas src k0 k' v0 hk0]
        refine hall k' ?_
        simp only [keysOf, List.map_cons, List.mem_cons]
        exact Or.inr hk'
      have hrec := ih (dset src k0 v0) hall' hr
      simp only [origSpec]
      obtain ⟨v, hv⟩ := Option.isSome_iff_exists.mp hrec
      simp [hv]
    · simp only [keysOf, List.map_cons, List.mem_cons] at hk
      rcases hk with rfl | hk
      · simp only [origSpec, origSpec_eq_none_of_not_mem rest (dset src k v0) k hr,
          if_pos rfl]
        exact hall k (by simp [keysOf])
      · exact absurd hk hr

theorem origSpec_congr (L : Dict) (src src' : Dict) (k : String)
    (h : dget src k = dget src' k) : origSpec L src k = origSpec L src' k := by
  induction L generalizing src src' with
  | nil => rfl
  | cons p rest ih =>
    obtain ⟨k0, v0⟩ := p
    have hrec : dget (dset src k0 v0) k = dget (dset src' k0 v0) k := by
      by_cases h0 : k0 = k
      · subst h0; rw [dget_dset_self, dget_dset_self]
      · rw [dget_dset_ne src k0 k v0 h0, dget_dset_ne src' k0 k v0 h0]; exact h
    simp only [origSpec, ih _ _ hrec, h]

theorem origSpec_stable (L : Dict) (src src' : Dict) (k : String)
    (hs : (origSpec L src k).isSome = true)
    (h : dget src' k = origSpec L src k) :
    origSpec L src' k = origSpec L src k := by
  induction L generalizing src src' with
  | nil => simp [origSpec] at hs
  | cons p rest ih =>
    obtain ⟨k0, v0⟩ := p
    by_cases h0 : k0 = k
    · subst h0
      have hcongr : origSpec rest (dset src' k0 v0) k0 =
          origSpec rest (dset src k0 v0) k0 :=
        origSpec_congr rest _ _ k0 (by rw [dget_dset_self, dget_dset_self])
      cases ho : origSpec rest (dset src k0 v0) k0 with
      | some v => simp only [origSpec, hcongr, ho]
      | none =>
        simp only [origSpec, hcongr, ho, if_pos rfl]
        simp only [origSpec, ho, if_pos rfl] at h
        exact h
    · cases ho : origSpec rest (dset src k0 v0) k with
      | none => simp only [origSpec, ho, if_neg h0] at hs; simp at hs
      | some v =>
        have hrs : (origSpec rest (dset src k0 v0) k).isSome = true := by simp [ho]
        have hv : dget (dset src' k0 v0) k = origSpec rest (dset src k0 v0) k := by
          rw [dget_dset_ne src' k0 k v0 h0, ho]
          simp only [origSpec, ho, if_neg h0] at h
          exact h
        have := ih (dset src k0 v0) (dset src' k0 v0) hrs hv
        simp only [origSpec, this, ho]

theorem origSpec_nodup (L : Dict) (src : Dict) (k : String)
    (hnd : (keysOf L).Nodup) (hk : k ∈ keysOf L) :
    origSpec L src k = dget src k := by
  induction L generalizing src with
  | nil => simp [keysOf] at hk
  | cons p rest ih =>
    obtain ⟨k0, v0⟩ := p
    simp only [keysOf, List.map_cons, List.nodup_cons] at hnd
    simp only [keysOf, List.map_cons, List.mem_cons] at hk
    rcases hk with rfl | hk
    · simp only [origSpec,
        origSpec_eq_none_of_not_mem rest (dset src k v0) k hnd.1, if_pos rfl]
      simp
    · have hne : k0 ≠ k := fun he => hnd.1 (he ▸ hk)
      have := ih (dset src k0 v0) hnd.2 hk
      rw [dget_dset_ne src k0 k v0 hne] at this
      simp only [origSpec, this]
      cases hg : dget src k with
      | none => simp [if_neg hne]
      | some v => simp

theorem stagedVal_eq_dget_of_nodup (L : Dict) (k : String)
    (hnd : (keysOf L).Nodup) : stagedVal L k = dget L k := by
  induction L with
  | nil => rfl
  | cons p rest ih =>
    obtain ⟨k0, v0⟩ := p
    simp only [keysOf, List.map_cons, List.nodup_cons] at hnd
    by_cases h0 : k0 = k
    · subst h0
      simp only [stagedVal, dget,
        stagedVal_eq_none_of_not_mem rest k0 hnd.1, if_pos rfl]
      simp
    · simp only [stagedVal, dget, ih hnd.2, if_neg h0]
      cases hg : dget rest k with
      | none => simp [if_neg h0]
      | some v => simp

/-! ### Restore-loop and diff characterization -/

theorem restoreFields_isSome (bad : List String) (src orig : Dict)
    (h : ∀ k ∈ bad, dhas src k = true → (dget orig k).isSome = true) :
    (restoreFields src orig bad).isSome = true := by
  induction bad generalizing src with
  | nil => simp [restoreFields]
  | cons b rest ih =>
    by_cases hb : dhas src b = true
    · obtain ⟨ov, hov⟩ := Option.isSome_iff_exists.mp (h b (by simp) hb)
      simp only [restoreFields, if_pos hb, hov]
      apply ih
      intro k hk hks
      rw [dhas_dset_of_dhas src b k ov hb] at hks
      exact h k (by simp [hk]) hks
    · simp only [restoreFields, if_neg hb]
      apply ih
      intro k hk hks
      exact h k (by simp [hk]) hks

theorem restoreFields_dget_not_mem (bad : List String) (src orig r : Dict)
    (h : restoreFields src orig bad = some r) (k : String) (hk : k ∉ bad) :
    dget r k = dget src k := by
  induction bad generalizing src with
  | nil => simp only [restoreFields, Option.some.injEq] at h; rw [← h]
  | cons b rest ih =>
    simp only [List.mem_cons, not_or] at hk
    by_cases hb : dhas src b = true
    · simp only [restoreFields, if_pos hb] at h
      cases hov : dget orig b with
      | none => rw [hov] at h; exact absurd h (by simp)
      | some ov =>
        rw [hov] at h
        rw [ih _ h hk.2, dget_dset_ne src b k ov (fun he => hk.1 he.symm)]
    · simp only [restoreFields, if_neg hb] at h
      exact ih _ h hk.2

theorem restoreFields_dget_not_has (bad : List String) (src orig r : Dict)
    (h : restoreFields src orig bad = some r) (k : String)
    (hk : dhas src k = false) : dget r k = dget src k := by
  induction bad generalizing src with
  | nil => simp only [restoreFields, Option.some.injEq] at h; rw [← h]
  | cons b rest ih =>
    by_cases hb : dhas src b = true
    · have hbk : b ≠ k := fun he => by rw [he] at hb; rw [hb] at hk; exact absurd hk (by simp)
      simp only [restoreFields, if_pos hb] at h
      cases hov : dget orig b with
      | none => rw [hov] at h; exact absurd h (by simp)
      | some ov =>
        rw [hov] at h
        have hk' : dhas (dset src b ov) k = false := by
          rw [dhas_dset_of_dhas src b k ov hb]; exact hk
        rw [ih _ h hk', dget_dset_ne src b k ov hbk]
    · simp only [restoreFields, if_neg hb] at h
      exact ih _ h hk

theorem restoreFields_dget_mem (bad : List String) (src orig r : Dict)
    (h : restoreFields src orig bad = some r) (k : String) (hk : k ∈ bad)
    (hh : dhas src k = true) : dget r k = dget orig k := by
  induction bad generalizing src with
  | nil => simp at hk
  | cons b rest ih =>
    by_cases hb : dhas src b = true
    · simp only [restoreFields, if_pos hb] at h
      cases hov : dget orig b with
      | none => rw [hov] at h; exact absurd h (by simp)
      | some ov =>
        rw [hov] at h
        by_cases hkb : k = b
        · subst hkb
          by_cases hkr : k ∈ rest
          · exact ih _ h hkr (dhas_dset_self src k ov)
          · rw [restoreFields_dget_not_mem rest _ orig r h k hkr,
              dget_dset_self src k ov, hov]
        · have hkr : k ∈ rest := by
            rcases List.mem_cons.mp hk with h' | h'
            · exact absurd h' hkb
            · exact h'
          have hh' : dhas (dset src b ov) k = true := by
            rw [dhas_dset_of_dhas src b k ov hb]; exact hh
          exact ih _ h hkr hh'
    · simp only [restoreFields, if_neg hb] at h
      have hkr : k ∈ rest := by
        rcases List.mem_cons.mp hk with h' | h'
        · exact absurd (h' ▸ hh) hb
        · exact h'
      exact ih _ h hkr hh

theorem restoreFields_keysOf (bad : List String) (src orig r : Dict)
    (h : restoreFields src orig bad = some r) : keysOf r = keysOf src := by
  induction bad generalizing src with
  | nil => simp only [restoreFields, Option.some.injEq] at h; rw [← h]
  | cons b rest ih =>
    by_cases hb : dhas src b = true
    · simp only [restoreFields, if_pos hb] at h
      cases hov : dget orig b with
      | none => rw [hov] at h; exact absurd h (by simp)
      | some ov =>
        rw [hov] at h
        rw [ih _ h, keysOf_dset_of_dhas src b ov hb]
    · simp only [restoreFields, if_neg hb] at h
      exact ih _ h

theorem collectFields_isSome (fl : List String) (mem : Dict)
    (h : ∀ f ∈ fl, dhas mem f = true) : (collectFields mem fl).isSome = true := by
  induction fl with
  | nil => simp [collectFields]
  | cons f rest ih =>
    obtain ⟨v, hv⟩ := Option.isSome_iff_exists.mp (h f (by simp))
    have hr := ih fun f' hf' => h f' (by simp [hf'])
    obtain ⟨d, hd⟩ := Option.isSome_iff_exists.mp hr
    simp [collectFields, hv, hd]

theorem collectFields_dget (fl : List String) (mem sd : Dict)
    (h : collectFields mem fl = some sd) (k : String) (hk : k ∈ fl) :
    dget sd k = dget mem k := by
  induction fl generalizing sd with
  | nil => simp at hk
  | cons f rest ih =>
    simp only [collectFields] at h
    cases hv : dget mem f with
    | none => rw [hv] at h; exact absurd h (by simp)
    | some v =>
      rw [hv] at h
      cases hd : collectFields mem rest with
      | none => rw [hd] at h; exact absurd h (by simp)
      | some d =>
        rw [hd] at h
        simp only [Option.some.injEq] at h
        subst h
        by_cases hf : f = k
        · subst hf; simp [dget, hv]
        · simp only [dget, if_neg hf]
          rcases List.mem_cons.mp hk with h' | h'
          · exact absurd h'.symm hf
          · exact ih d hd h'

theorem diffKeys_char (sd : Dict) (staged : Dict)
    (h : ∀ p ∈ staged, (dget sd p.1).isSome = true) :
    diffKeys sd staged =
      some ((staged.filter fun p => decide (dget sd p.1 ≠ some p.2)).map Prod.fst) := by
  induction staged with
  | nil => rfl
  | cons p rest ih =>
    obtain ⟨k, v⟩ := p
    obtain ⟨sv, hsv⟩ := Option.isSome_iff_exists.mp (h (k, v) (by simp))
    have hr := ih fun q hq => h q (by simp [hq])
    simp only [diffKeys, hsv, hr]
    by_cases hv : v = sv
    · subst hv; simp [List.filter, hsv]
    · simp [List.filter, hsv, hv, Ne.symm hv]

theorem diffKeys_nil (sd : Dict) (staged : Dict)
    (h : ∀ p ∈ staged, dget sd p.1 = some p.2) :
    diffKeys sd staged = some [] := by
  induction staged with
  | nil => rfl
  | cons p rest ih =>
    obtain ⟨k, v⟩ := p
    have hk := h (k, v) (by simp)
    have hr := ih fun q hq => h q (by simp [hq])
    simp [diffKeys, hk, hr]

theorem mem_collectPresent (src : Dict) (fl : List String) (p : String × Value)
    (hp : p ∈ collectPresent src fl) : p.1 ∈ fl ∧ dget src p.1 = some p.2 := by
  induction fl with
  | nil => simp [collectPresent] at hp
  | cons k rest ih =>
    simp only [collectPresent] at hp
    cases hd : dget src k with
    | none =>
      rw [hd] at hp
      obtain ⟨h1, h2⟩ := ih hp
      exact ⟨by simp [h1], h2⟩
    | some v =>
      rw [hd] at hp
      rcases List.mem_cons.mp hp with heq | htail
      · subst heq; exact ⟨by simp, hd⟩
      · obtain ⟨h1, h2⟩ := ih htail
        exact ⟨by simp [h1], h2⟩

theorem restoreFields_orig_isSome (bad : List String) (src orig r : Dict)
    (h : restoreFields src orig bad = some r) (k : String) (hk : k ∈ bad)
    (hh : dhas src k = true) : (dget orig k).isSome = true := by
  induction bad generalizing src with
  | nil => simp at hk
  | cons b rest ih =>
    by_cases hb : dhas src b = true
    · simp only [restoreFields, if_pos hb] at h
      cases hov : dget orig b with
      | none => rw [hov] at h; exact absurd h (by simp)
      | some ov =>
        rw [hov] at h
        by_cases hkb : k = b
        · subst hkb; simp [hov]
        · have hkr : k ∈ rest := by
            rcases List.mem_cons.mp hk with h' | h'
            · exact absurd h' hkb
            · exact h'
          have hh' : dhas (dset src b ov) k = true := by
            rw [dhas_dset_of_dhas src b k ov hb]; exact hh
          exact ih _ h hkr hh'
    · simp only [restoreFields, if_neg hb] at h
      have hkr : k ∈ rest := by
        rcases List.mem_cons.mp hk with h' | h'
        · exact absurd (h' ▸ hh) hb
        · exact h'
      exact ih _ h hkr hh

theorem dhas_eq_of_keysOf_eq (d1 d2 : Dict) (h : keysOf d1 = keysOf d2)
    (k : String) : dhas d1 k = dhas d2 k := by
  by_cases h1 : k ∈ keysOf d1
  · rw [(dhas_iff_mem_keysOf d1 k).mpr h1, (dhas_iff_mem_keysOf d2 k).mpr (h ▸ h1)]
  · have e1 : dhas d1 k = false := by
      cases hb : dhas d1 k with
      | false => rfl
      | true => exact absurd ((dhas_iff_mem_keysOf d1 k).mp hb) h1
    have e2 : dhas d2 k = false := by
      cases hb : dhas d2 k with
      | false => rfl
      | true => exact absurd ((dhas_iff_mem_keysOf d2 k).mp hb) (h ▸ h1)
    rw [e1, e2]

theorem not_mem_of_stagedVal_eq_none (L : Dict) (k : String)
    (h : stagedVal L k = none) : k ∉ keysOf L := by
  intro hm
  have := stagedVal_isSome_of_mem L k hm
  rw [h] at this
  simp at this

theorem mergeSlot_merge_again (L : Dict) (mem m1 o1 src2 m2 o2 : Dict)
    (hm1 : mergeSlot mem [] L = some (m1, o1))
    (hm2 : mergeSlot src2 [] L = some (m2, o2))
    (hsrc2 : ∀ k, stagedVal L k = none → dget src2 k = dget m1 k)
    (hkeys : keysOf src2 = keysOf mem)
    (hnd : (keysOf mem).Nodup) :
    m2 = m1 := by
  apply dict_ext
  · rw [mergeSlot_keysOf _ _ _ _ _ hm2, hkeys, ← mergeSlot_keysOf _ _ _ _ _ hm1]
  · rw [mergeSlot_keysOf _ _ _ _ _ hm2, hkeys]
    exact hnd
  · intro k
    have h1 := mergeSlot_dget L mem [] m1 o1 hm1 k
    have h2 := mergeSlot_dget L src2 [] m2 o2 hm2 k
    cases hs : stagedVal L k with
    | some v =>
      rw [hs] at h1 h2
      dsimp only at h1 h2
      rw [h2, h1]
    | none =>
      rw [hs] at h1 h2
      dsimp only at h1 h2
      rw [h2, hsrc2 k hs]

/-! ### updateSource and approve invariants -/

theorem mergeStep_eq_append (cfg : Config) (rec : Record) (mem : Dict) :
    mergeStep cfg rec false mem =
      mergeSlot mem [] (rec.sandboxFields ++ rec.sandboxStore) := by
  unfold mergeStep
  rw [if_neg (show ¬(false = true) by simp)]
  exact (mergeSlot_append rec.sandboxFields rec.sandboxStore mem []).symm

theorem updateSource_rec_congr (clean : String → Value → Bool) (cfg : Config)
    (r1 r2 : Record) (dflt save : Bool) (mem : Dict) (db : Option Dict)
    (hf : r1.sandboxFields = r2.sandboxFields)
    (hs : r1.sandboxStore = r2.sandboxStore) :
    updateSource clean cfg r1 dflt save mem db =
      updateSource clean cfg r2 dflt save mem db := by
  unfold updateSource mergeStep
  rw [hf, hs]

theorem updateSource_idempotent (clean : String → Value → Bool) (cfg : Config)
    (rec : Record) (mem : Dict) (db : Option Dict) (e : Dict) (db2 : Option Dict)
    (fl : Bool) (hnd : (keysOf mem).Nodup)
    (h : updateSource clean cfg rec false true mem db = some (e, db2, fl)) :
    updateSource clean cfg rec false true e db2 = some (e, some e, fl) := by
  unfold updateSource at h ⊢
  rw [mergeStep_eq_append] at h
  rw [mergeStep_eq_append]
  cases hm1 : mergeSlot mem [] (rec.sandboxFields ++ rec.sandboxStore) with
  | none => rw [hm1] at h; exact absurd h (by simp)
  | some p1 =>
    obtain ⟨m1, o1⟩ := p1
    rw [hm1] at h
    dsimp only at h
    have hkeysL : ∀ k ∈ keysOf (rec.sandboxFields ++ rec.sandboxStore),
        dhas mem k = true := mergeSlot_dhas_src _ _ _ _ _ hm1
    have hkm1 : keysOf m1 = keysOf mem := mergeSlot_keysOf _ _ _ _ _ hm1
    have hdhas_m1 : ∀ k, dhas m1 k = dhas mem k := dhas_eq_of_keysOf_eq _ _ hkm1
    by_cases hb1 : invalidFields clean m1 = []
    · rw [if_pos hb1] at h
      simp only [Option.some.injEq, Prod.mk.injEq] at h
      obtain ⟨he, hdb, hfl⟩ := h
      subst he
      subst hfl
      subst hdb
      have hs2 : (mergeSlot m1 [] (rec.sandboxFields ++ rec.sandboxStore)).isSome =
          true :=
        mergeSlot_some_of_dhas _ _ _ (fun k hk => by
          rw [hdhas_m1 k]; exact hkeysL k hk)
      obtain ⟨p2, hm2⟩ := Option.isSome_iff_exists.mp hs2
      obtain ⟨m2, o2⟩ := p2
      have hm2eq : m2 = m1 :=
        mergeSlot_merge_again _ mem m1 o1 m1 m2 o2 hm1 hm2 (fun k _ => rfl) hkm1 hnd
      rw [hm2]
      dsimp only
      rw [hm2eq, if_pos hb1]
      simp
    · rw [if_neg hb1] at h
      cases hr1 : restoreFields m1 o1 (invalidFields clean m1) with
      | none => rw [hr1] at h; exact absurd h (by simp)
      | some e1 =>
        rw [hr1] at h
        simp only [Option.some.injEq, Prod.mk.injEq] at h
        obtain ⟨he, hdb, hfl⟩ := h
        subst he
        subst hfl
        subst hdb
        have hke1 : keysOf e1 = keysOf m1 := restoreFields_keysOf _ _ _ _ hr1
        have hdhas_e1 : ∀ k, dhas e1 k = dhas m1 k := dhas_eq_of_keysOf_eq _ _ hke1
        have he1_off : ∀ k,
            stagedVal (rec.sandboxFields ++ rec.sandboxStore) k = none →
            dget e1 k = dget m1 k := by
          intro k hs
          have hknot : k ∉ keysOf (rec.sandboxFields ++ rec.sandboxStore) :=
            not_mem_of_stagedVal_eq_none _ k hs
          by_cases hkb : k ∈ invalidFields clean m1
          · by_cases hkh : dhas m1 k = true
            · exfalso
              have hsome := restoreFields_orig_isSome _ _ _ _ hr1 k hkb hkh
              have horig := mergeSlot_orig _ mem [] m1 o1 hm1 k
              rw [origSpec_eq_none_of_not_mem _ mem k hknot] at horig
              dsimp only at horig
              rw [horig] at hsome
              simp [dget] at hsome
            · have hkh' : dhas m1 k = false := by
                cases hb : dhas m1 k with
                | false => rfl
                | true => exact absurd hb hkh
              exact restoreFields_dget_not_has _ _ _ _ hr1 k hkh'
          · exact restoreFields_dget_not_mem _ _ _ _ hr1 k hkb
        have hs2 : (mergeSlot e1 [] (rec.sandboxFields ++ rec.sandboxStore)).isSome =
            true :=
          mergeSlot_some_of_dhas _ _ _ (fun k hk => by
            rw [hdhas_e1 k, hdhas_m1 k]; exact hkeysL k hk)
        obtain ⟨p2, hm2⟩ := Option.isSome_iff_exists.mp hs2
        obtain ⟨m2, o2⟩ := p2
        have hm2eq : m2 = m1 :=
          mergeSlot_merge_again _ mem m1 o1 e1 m2 o2 hm1 hm2 he1_off
            (hke1.trans hkm1) hnd
        have horig2 : ∀ k, k ∈ invalidFields clean m1 → dhas m1 k = true →
            dget o2 k = dget o1 k := by
          intro k hkb hkh
          have hsome := restoreFields_orig_isSome _ _ _ _ hr1 k hkb hkh
          have ho1 := mergeSlot_orig _ mem [] m1 o1 hm1 k
          cases hspec : origSpec (rec.sandboxFields ++ rec.sandboxStore) mem k with
          | none =>
            rw [hspec] at ho1
            dsimp only at ho1
            rw [ho1] at hsome
            simp [dget] at hsome
          | some w =>
            rw [hspec] at ho1
            dsimp only at ho1
            have he1k : dget e1 k = some w := by
              rw [restoreFields_dget_mem _ _ _ _ hr1 k hkb hkh, ho1]
            have hstab := origSpec_stable (rec.sandboxFields ++ rec.sandboxStore)
              mem e1 k (by simp [hspec]) (by rw [he1k, hspec])
            have ho2 := mergeSlot_orig _ e1 [] m2 o2 hm2 k
            rw [hstab, hspec] at ho2
            dsimp only at ho2
            rw [ho2, ho1]
        have hs3 : (restoreFields m1 o2 (invalidFields clean m1)).isSome = true := by
          apply restoreFields_isSome
          intro k hk hkh
          rw [horig2 k hk hkh]
          exact restoreFields_orig_isSome _ _ _ _ hr1 k hk hkh
        obtain ⟨e2, hr2⟩ := Option.isSome_iff_exists.mp hs3
        have he2eq : e2 = e1 := by
          apply dict_ext
          · rw [restoreFields_keysOf _ _ _ _ hr2, hke1]
          · rw [restoreFields_keysOf _ _ _ _ hr2, hkm1]
            exact hnd
          · intro k
            by_cases hkb : k ∈ invalidFields clean m1
            · by_cases hkh : dhas m1 k = true
              · rw [restoreFields_dget_mem _ _ _ _ hr2 k hkb hkh,
                  restoreFields_dget_mem _ _ _ _ hr1 k hkb hkh,
                  horig2 k hkb hkh]
              · have hkh' : dhas m1 k = false := by
                  cases hb : dhas m1 k with
                  | false => rfl
                  | true => exact absurd hb hkh
                rw [restoreFields_dget_not_has _ _ _ _ hr2 k hkh',
                  restoreFields_dget_not_has _ _ _ _ hr1 k hkh']
            · rw [restoreFields_dget_not_mem _ _ _ _ hr2 k hkb,
                restoreFields_dget_not_mem _ _ _ _ hr1 k hkb]
        rw [hm2]
        dsimp only
        rw [hm2eq, if_neg hb1, hr2]
        dsimp only
        rw [he2eq]
        simp

theorem updateSource_save_db (clean : String → Value → Bool) (cfg : Config)
    (rec : Record) (dflt : Bool) (mem : Dict) (db : Option Dict)
    (m : Dict) (d : Option Dict) (f : Bool)
    (h : updateSource clean cfg rec dflt true mem db = some (m, d, f)) :
    d = some m := by
  unfold updateSource at h
  cases hs : mergeStep cfg rec dflt mem with
  | none => rw [hs] at h; exact absurd h (by simp)
  | some p =>
    obtain ⟨merged, orig⟩ := p
    rw [hs] at h
    dsimp only at h
    by_cases hb : invalidFields clean merged = []
    · rw [if_pos hb] at h
      simp only [Option.some.injEq, Prod.mk.injEq] at h
      obtain ⟨h1, h2, h3⟩ := h
      subst h1
      subst h2
      simp
    · rw [if_neg hb] at h
      cases hr : restoreFields merged orig (invalidFields clean merged) with
      | none => rw [hr] at h; exact absurd h (by simp)
      | some rr =>
        rw [hr] at h
        simp only [Option.some.injEq, Prod.mk.injEq] at h
        obtain ⟨h1, h2, h3⟩ := h
        subst h1
        subst h2
        simp

theorem approve_state_eq (clean : String → Value → Bool) (cfg : Config) (now : Nat)
    (user : Option User) (saveRec : Bool) (st st' : State)
    (h : approve clean cfg now user saveRec st = some st') :
    st'.record = approveStamp now user st.record ∧ st'.ignoreApproval = true ∧
    st'.db = some st'.mem := by
  unfold approve at h
  cases hu : updateSource clean cfg (approveStamp now user st.record) false true
      st.mem st.db with
  | none => rw [hu] at h; exact absurd h (by simp)
  | some t =>
    rw [hu] at h
    obtain ⟨m', d', fl⟩ := t
    simp only [Option.some.injEq] at h
    subst h
    refine ⟨rfl, rfl, ?_⟩
    exact updateSource_save_db clean cfg _ false st.mem st.db m' d' fl hu

theorem approveFirst_approved (clean : String → Value → Bool) (cfg : Config)
    (now : Nat) (authors : List User) (st st' : State)
    (h : approveFirst clean cfg now authors st = some st') :
    st'.record.approved = some true := by
  cases authors with
  | nil => simp [approveFirst] at h
  | cons a t =>
    have := (approve_state_eq clean cfg now (some a) true st st' h).1
    rw [this]
    simp [approveStamp]

/-! ### Claims -/

/-- C5 counterexample: a staged field (`extra`) still present on the
entity's schema but no longer configured as monitored makes `_get_diff`
raise an uncaught KeyError (modelled as `none`) instead of being
ignored; the spec's total, schema-intersecting diff (`specDiff`) would
return `["extra"]` at the same input. -/
theorem getDiff_stale_key_crash :
    getDiff (Config.mk ["content"] [] [] false false)
        { recEmpty with
          sandboxFields := [("extra", Value.int 5), ("content", Value.str "x")] }
        [("extra", Value.int 1), ("content", Value.str "x")] = none ∧
    specDiff
        { recEmpty with
          sandboxFields := [("extra", Value.int 5), ("content", Value.str "x")] }
        [("extra", Value.int 1), ("content", Value.str "x")] = ["extra"] :=
  ⟨by decide, by decide⟩

/-- C5 (amended): `_get_diff` returns exactly the staged field names
whose staged value differs from the persisted value — but the
computation is total only when every staged key is currently configured
as monitored and every configured monitored field is still an attribute
of the entity; a stale staged or configured field makes it fail
(KeyError/AttributeError) rather than being ignored. -/
theorem getDiff_characterization (cfg : Config) (rec : Record) (mem : Dict)
    (hstag : ∀ k ∈ keysOf rec.sandboxFields, k ∈ cfg.approval_fields)
    (hattr : ∀ f ∈ cfg.approval_fields, dhas mem f = true) :
    getDiff cfg rec mem =
      some ((rec.sandboxFields.filter
        fun p => decide (dget mem p.1 ≠ some p.2)).map Prod.fst) := by
  obtain ⟨sd, hsd⟩ :=
    Option.isSome_iff_exists.mp (collectFields_isSome cfg.approval_fields mem hattr)
  unfold getDiff
  rw [hsd]
  dsimp only
  have hmemsd : ∀ p ∈ rec.sandboxFields, dget sd p.1 = dget mem p.1 := by
    intro p hp
    exact collectFields_dget _ mem sd hsd p.1
      (hstag p.1 (List.mem_map.mpr ⟨p, hp, rfl⟩))
  rw [diffKeys_char sd rec.sandboxFields (fun p hp => by
    rw [hmemsd p hp]
    have := hattr p.1 (hstag p.1 (List.mem_map.mpr ⟨p, hp, rfl⟩))
    simpa [dhas] using this)]
  congr 1
  congr 1
  apply List.filter_congr
  intro p hp
  rw [hmemsd p hp]

/-- Witness for C5's amended theorem at a concrete input. -/
theorem getDiff_characterization_witness :
    ((∀ k ∈ keysOf [("a", Value.int 1)], k ∈ ["a", "b"]) ∧
      (∀ f ∈ ["a", "b"],
        dhas [("a", Value.int 2), ("b", Value.int 3)] f = true)) ∧
    getDiff (Config.mk ["a", "b"] [] [] false false)
        { recEmpty with sandboxFields := [("a", Value.int 1)] }
        [("a", Value.int 2), ("b", Value.int 3)] = some ["a"] :=
  ⟨⟨by decide, by decide⟩,
    (getDiff_characterization (Config.mk ["a", "b"] [] [] false false)
      { recEmpty with sandboxFields := [("a", Value.int 1)] }
      [("a", Value.int 2), ("b", Value.int 3)] (by decide) (by decide)).trans
      (by decide)⟩

/-- C1: the auto-approval evaluation approves the record exactly when
some author holds the moderation permission, or the diff is empty, or
the record is new (`update = False`) and `auto_approve_new` is set, or
`auto_approve_staff` is set and some author is staff; and a pre-save of
an update that changes no monitored field yields an empty diff and
auto-approves without a human decision. -/
theorem auto_approval_policy (clean : String → Value → Bool) (cfg : Config)
    (now : Nat) :
    (∀ (authors : List User) (update : Bool) (st st' : State),
      st.record.approved = none →
      autoProcess clean cfg now authors update st = some st' →
      (st'.record.approved = some true ↔
        ((authors.any fun u => u.canModerate) = true ∨
          needsApproval cfg st.record st.mem = some false ∨
          (cfg.auto_approve_new = true ∧ update = false) ∨
          (cfg.auto_approve_staff = true ∧
            (authors.any fun u => u.is_staff) = true)))) ∧
    (∀ (authors : List User) (st st' : State) (dbv : Dict),
      st.ignoreApproval = false →
      st.db = some dbv →
      (∀ f ∈ cfg.approval_fields, dget st.mem f = dget dbv f) →
      beforeSave clean cfg now authors st = some st' →
      st'.record.approved = some true) := by
  constructor
  · intro authors update st st' h0 hres
    unfold autoProcess at hres
    cases hn : needsApproval cfg st.record st.mem with
    | none => rw [hn] at hres; exact absurd hres (by simp)
    | some needs =>
      rw [hn] at hres
      dsimp only at hres
      by_cases hc1 : ((authors.any fun u => u.canModerate) || !needs ||
          (cfg.auto_approve_new && !update)) = true
      · rw [if_pos hc1] at hres
        cases haf : approveFirst clean cfg now authors st with
        | none => rw [haf] at hres; exact absurd hres (by simp)
        | some st1 =>
          rw [haf] at hres
          dsimp only at hres
          have h1 : st1.record.approved = some true :=
            approveFirst_approved _ _ _ _ _ _ haf
          have happroved : st'.record.approved = some true := by
            by_cases hc2 : (cfg.auto_approve_staff &&
                (authors.any fun u => u.is_staff)) = true
            · rw [if_pos hc2] at hres
              exact approveFirst_approved _ _ _ _ _ _ hres
            · rw [if_neg hc2] at hres
              simp only [Option.some.injEq] at hres
              rw [← hres]
              exact h1
          constructor
          · intro _
            simp only [Bool.or_eq_true, Bool.and_eq_true, Bool.not_eq_true'] at hc1
            rcases hc1 with (h | h) | h
            · exact Or.inl h
            · exact Or.inr (Or.inl (by rw [h]))
            · exact Or.inr (Or.inr (Or.inl ⟨h.1, h.2⟩))
          · intro _
            exact happroved
      · rw [if_neg hc1] at hres
        dsimp only at hres
        by_cases hc2 : (cfg.auto_approve_staff &&
            (authors.any fun u => u.is_staff)) = true
        · rw [if_pos hc2] at hres
          have h1 := approveFirst_approved _ _ _ _ _ _ hres
          have hc2' : cfg.auto_approve_staff = true ∧
              (authors.any fun u => u.is_staff) = true := by
            simpa [Bool.and_eq_true] using hc2
          exact ⟨fun _ => Or.inr (Or.inr (Or.inr hc2')), fun _ => h1⟩
        · rw [if_neg hc2] at hres
          simp only [Option.some.injEq] at hres
          subst hres
          constructor
          · intro hcontr
            rw [h0] at hcontr
            exact absurd hcontr (by simp)
          · intro hrhs
            exfalso
            simp only [Bool.or_eq_true, not_or, Bool.not_eq_true'] at hc1
            rcases hrhs with h | h | h | h
            · exact hc1.1.1 h
            · injection h with h'
              exact hc1.1.2 h'
            · exact hc1.2 (by simp [h.1, h.2])
            · exact hc2 (by simp [h.1, h.2])
  · intro authors st st' dbv hig hdb hagree hres
    unfold beforeSave at hres
    simp only [hig, hdb] at hres
    rw [if_neg (show ¬(false = true) by simp)] at hres
    have hmem2 : (stageAndRevert cfg st dbv).mem = dbv := rfl
    have hrec2 : (stageAndRevert cfg st dbv).record.sandboxFields =
      collectPresent st.mem cfg.approval_fields := rfl
    unfold autoProcess at hres
    cases hn : needsApproval cfg (stageAndRevert cfg st dbv).record
        (stageAndRevert cfg st dbv).mem with
    | none => rw [hn] at hres; exact absurd hres (by simp)
    | some needs =>
      have hneeds : needs = false := by
        unfold needsApproval at hn
        obtain ⟨l, hl, hneed⟩ := Option.map_eq_some'.mp hn
        unfold getDiff at hl
        rw [hmem2, hrec2] at hl
        cases hcf : collectFields dbv cfg.approval_fields with
        | none => rw [hcf] at hl; exact absurd hl (by simp)
        | some sd =>
          rw [hcf] at hl
          dsimp only at hl
          have hnil : diffKeys sd (collectPresent st.mem cfg.approval_fields) =
              some [] := by
            apply diffKeys_nil
            intro p hp
            obtain ⟨hp1, hp2⟩ := mem_collectPresent st.mem cfg.approval_fields p hp
            rw [collectFields_dget cfg.approval_fields dbv sd hcf p.1 hp1,
              ← hagree p.1 hp1]
            exact hp2
          rw [hnil] at hl
          simp only [Option.some.injEq] at hl
          rw [← hneed, ← hl]
          rfl
      subst hneeds
      rw [hn] at hres
      dsimp only at hres
      have hc1 : ((authors.any fun u => u.canModerate) || !false ||
          (cfg.auto_approve_new && !true)) = true := by simp
      rw [if_pos hc1] at hres
      cases haf : approveFirst clean cfg now authors (stageAndRevert cfg st dbv) with
      | none => rw [haf] at hres; exact absurd hres (by simp)
      | some st1 =>
        rw [haf] at hres
        dsimp only at hres
        by_cases hc2 : (cfg.auto_approve_staff &&
            (authors.any fun u => u.is_staff)) = true
        · rw [if_pos hc2] at hres
          exact approveFirst_approved _ _ _ _ _ _ hres
        · rw [if_neg hc2] at hres
          simp only [Option.some.injEq] at hres
          rw [← hres]
          exact approveFirst_approved _ _ _ _ _ _ haf

/-- Witness for C1 at a concrete input: a new record (empty author
permission, staff off, `auto_approve_new` off) whose staged value equals
the persisted one, so the diff is empty and the evaluation approves. -/
theorem auto_approval_policy_witness :
    ((State.mk [("a", Value.int 1)] (some [("a", Value.int 1)])
        { recEmpty with sandboxFields := [("a", Value.int 1)] }
        false).record.approved = none ∧
      autoProcess cleanAll (Config.mk ["a"] [] [] false false) 3
        [User.mk false false] true
        (State.mk [("a", Value.int 1)] (some [("a", Value.int 1)])
          { recEmpty with sandboxFields := [("a", Value.int 1)] } false) =
        some
          (State.mk [("a", Value.int 1)] (some [("a", Value.int 1)])
            { recEmpty with
              sandboxFields := [("a", Value.int 1)]
              approved := some true
              moderator := some (User.mk false false)
              draft := false
              approval_date := some 3
              info := successInfo } true)) ∧
    ((State.mk [("a", Value.int 1)] (some [("a", Value.int 1)])
        { recEmpty with
          sandboxFields := [("a", Value.int 1)]
          approved := some true
          moderator := some (User.mk false false)
          draft := false
          approval_date := some 3
          info := successInfo } true).record.approved = some true ↔
      (([User.mk false false].any fun u => u.canModerate) = true ∨
        needsApproval (Config.mk ["a"] [] [] false false)
          (State.mk [("a", Value.int 1)] (some [("a", Value.int 1)])
            { recEmpty with sandboxFields := [("a", Value.int 1)] }
            false).record
          (State.mk [("a", Value.int 1)] (some [("a", Value.int 1)])
            { recEmpty with sandboxFields := [("a", Value.int 1)] }
            false).mem = some false ∨
        ((Config.mk ["a"] [] [] false false).auto_approve_new = true ∧
          true = false) ∨
        ((Config.mk ["a"] [] [] false false).auto_approve_staff = true ∧
          ([User.mk false false].any fun u => u.is_staff) = true))) :=
  ⟨⟨by decide, by decide⟩,
    (auto_approval_policy cleanAll (Config.mk ["a"] [] [] false false) 3).1
      [User.mk false false] true
      (State.mk [("a", Value.int 1)] (some [("a", Value.int 1)])
        { recEmpty with sandboxFields := [("a", Value.int 1)] } false)
      (State.mk [("a", Value.int 1)] (some [("a", Value.int 1)])
        { recEmpty with
          sandboxFields := [("a", Value.int 1)]
          approved := some true
          moderator := some (User.mk false false)
          draft := false
          approval_date := some 3
          info := successInfo } true)
      (by decide) (by decide)⟩

/-- C3 counterexample: two merges that reject different field sets
(`{a}` vs `{b}`) hand the caller the identical value `False` — the
boolean returned by `_update_source` (itself discarded by `approve`)
carries no rejected-field names, so the rejected set is not reported to
the caller of `approve`. -/
theorem updateSource_no_field_report :
    rejectedFields cleanNoZero cfgAB recA memAB = some ["a"] ∧
    rejectedFields cleanNoZero cfgAB recB memAB = some ["b"] ∧
    (updateSource cleanNoZero cfgAB recA false false memAB none).map
      (fun t => t.2.2) = some false ∧
    (updateSource cleanNoZero cfgAB recB false false memAB none).map
      (fun t => t.2.2) = some false :=
  ⟨by decide, by decide, by decide, by decide⟩

/-- C3 (amended): on a merge whose fully merged entity has invalid
fields, `_update_source` restores exactly the rejected fields to their
pre-merge values and keeps every other staged field merged — but it
returns only the boolean `False` (which `approve` discards); the
rejected-field names are logged, not reported to the caller. -/
theorem updateSource_partial_rollback (clean : String → Value → Bool)
    (cfg : Config) (rec : Record) (save : Bool) (mem : Dict) (db : Option Dict)
    (m orig e : Dict) (db2 : Option Dict) (fl : Bool)
    (hnd : (keysOf (rec.sandboxFields ++ rec.sandboxStore)).Nodup)
    (hm : mergeSlot mem [] (rec.sandboxFields ++ rec.sandboxStore) = some (m, orig))
    (hbad : invalidFields clean m ≠ [])
    (h : updateSource clean cfg rec false save mem db = some (e, db2, fl)) :
    fl = false ∧
    (∀ k ∈ invalidFields clean m, dget e k = dget mem k) ∧
    (∀ p ∈ rec.sandboxFields ++ rec.sandboxStore,
      p.1 ∉ invalidFields clean m → dget e p.1 = some p.2) := by
  unfold updateSource at h
  rw [mergeStep_eq_append, hm] at h
  dsimp only at h
  rw [if_neg hbad] at h
  cases hr : restoreFields m orig (invalidFields clean m) with
  | none => rw [hr] at h; exact absurd h (by simp)
  | some rr =>
    rw [hr] at h
    simp only [Option.some.injEq, Prod.mk.injEq] at h
    obtain ⟨he, _, hfl⟩ := h
    subst he
    refine ⟨hfl.symm, ?_, ?_⟩
    · intro k hk
      have hhas : dhas m k = true := dhas_of_mem_invalid clean m k hk
      rw [restoreFields_dget_mem (invalidFields clean m) m orig rr hr k hk hhas]
      have hsome := restoreFields_orig_isSome (invalidFields clean m) m orig rr hr
        k hk hhas
      have horig := mergeSlot_orig (rec.sandboxFields ++ rec.sandboxStore)
        mem [] m orig hm k
      cases ho : origSpec (rec.sandboxFields ++ rec.sandboxStore) mem k with
      | none =>
        rw [ho] at horig
        rw [horig] at hsome
        simp [dget] at hsome
      | some v =>
        have hkmem : k ∈ keysOf (rec.sandboxFields ++ rec.sandboxStore) :=
          origSpec_mem_of_isSome _ mem k (by simp [ho])
        rw [ho] at horig
        dsimp only at horig
        rw [horig, ← ho, origSpec_nodup _ mem k hnd hkmem]
    · intro p hp hnb
      rw [restoreFields_dget_not_mem (invalidFields clean m) m orig rr hr p.1 hnb]
      have hdg := mergeSlot_dget (rec.sandboxFields ++ rec.sandboxStore)
        mem [] m orig hm p.1
      rw [stagedVal_eq_dget_of_nodup _ p.1 hnd,
        dget_of_mem_nodup _ p hnd hp] at hdg
      exact hdg

/-- Witness for C3's amended theorem at a concrete input: staging
`a = 0` (invalid) and `b = 1` (valid) over the entity `a = 2, b = 2`
yields the merged entity `a = 2, b = 1` and return value `False`. -/
theorem updateSource_partial_rollback_witness :
    ((keysOf (recA.sandboxFields ++ recA.sandboxStore)).Nodup ∧
      mergeSlot memAB [] (recA.sandboxFields ++ recA.sandboxStore) =
        some ([("a", Value.int 0), ("b", Value.int 1)], memAB) ∧
      invalidFields cleanNoZero [("a", Value.int 0), ("b", Value.int 1)] ≠ [] ∧
      updateSource cleanNoZero cfgAB recA false false memAB none =
        some ([("a", Value.int 2), ("b", Value.int 1)], none, false)) ∧
    (false = false ∧
      (∀ k ∈ invalidFields cleanNoZero [("a", Value.int 0), ("b", Value.int 1)],
        dget [("a", Value.int 2), ("b", Value.int 1)] k = dget memAB k) ∧
      (∀ p ∈ recA.sandboxFields ++ recA.sandboxStore,
        p.1 ∉ invalidFields cleanNoZero [("a", Value.int 0), ("b", Value.int 1)] →
        dget [("a", Value.int 2), ("b", Value.int 1)] p.1 = some p.2)) :=
  ⟨⟨by decide, by decide, by decide, by decide⟩,
    updateSource_partial_rollback cleanNoZero cfgAB recA false memAB none
      [("a", Value.int 0), ("b", Value.int 1)] memAB
      [("a", Value.int 2), ("b", Value.int 1)] none false
      (by decide) (by decide) (by decide) (by decide)⟩

/-- C6: for every `deny(record, actor, reason)` call, the entity owned by
the record is not mutated in any field: the in-memory source and its
persisted row are unchanged, while the record's status becomes Denied,
`draft` becomes false, and the moderator and reason are set (the reason
falling back to the default refusal message when absent or empty). -/
theorem deny_frame (user : Option User) (reason : Option String) (saveRec : Bool)
    (st : State) :
    (deny user reason saveRec st).mem = st.mem ∧
    (deny user reason saveRec st).db = st.db ∧
    (deny user reason saveRec st).record.approved = some false ∧
    (deny user reason saveRec st).record.draft = false ∧
    (deny user reason saveRec st).record.moderator = user ∧
    (deny user reason saveRec st).record.info =
      (match reason with
       | some r => if r = "" then refusalInfo else r
       | none => refusalInfo) ∧
    (deny user reason saveRec st).record.sandboxFields = st.record.sandboxFields ∧
    (deny user reason saveRec st).record.sandboxStore = st.record.sandboxStore := by
  refine ⟨rfl, rfl, rfl, rfl, rfl, ?_, rfl, rfl⟩
  rfl

/-- C2: the staging step of the pre-save hook on a persisted entity
copies the about-to-be-written monitored and store field values into the
record's `fields`/`store` slots (overwriting any prior snapshot), resets
the status to unset (pending), and reverts the in-memory entity to its
persisted values `dbv`, so the write in progress never lands unreviewed. -/
theorem stageAndRevert_spec (cfg : Config) (st : State) (dbv : Dict) :
    (stageAndRevert cfg st dbv).record.sandboxFields =
      collectPresent st.mem cfg.approval_fields ∧
    (stageAndRevert cfg st dbv).record.sandboxStore =
      collectPresent st.mem cfg.approval_store_fields ∧
    (stageAndRevert cfg st dbv).record.approved = none ∧
    (stageAndRevert cfg st dbv).mem = dbv ∧
    (stageAndRevert cfg st dbv).db = st.db ∧
    (∀ f v, f ∈ cfg.approval_fields → dget st.mem f = some v →
      dget (stageAndRevert cfg st dbv).record.sandboxFields f = some v) ∧
    (∀ f v, f ∈ cfg.approval_store_fields → dget st.mem f = some v →
      dget (stageAndRevert cfg st dbv).record.sandboxStore f = some v) := by
  refine ⟨rfl, rfl, rfl, rfl, rfl, ?_, ?_⟩
  · intro f v hf hv
    exact collectPresent_dget st.mem cfg.approval_fields f v hf hv
  · intro f v hf hv
    exact collectPresent_dget st.mem cfg.approval_store_fields f v hf hv

/-- Witness for C2 at a concrete input. -/
theorem stageAndRevert_spec_witness :
    ("a" ∈ (Config.mk ["a"] ["s"] [] false false).approval_fields ∧
      dget [("a", Value.int 3), ("s", Value.int 4)] "a" = some (Value.int 3)) ∧
    dget (stageAndRevert (Config.mk ["a"] ["s"] [] false false)
        (State.mk [("a", Value.int 3), ("s", Value.int 4)]
          (some [("a", Value.int 1), ("s", Value.int 4)]) recEmpty false)
        [("a", Value.int 1), ("s", Value.int 4)]).record.sandboxFields "a" =
      some (Value.int 3) :=
  ⟨⟨by decide, by decide⟩,
    (stageAndRevert_spec (Config.mk ["a"] ["s"] [] false false)
      (State.mk [("a", Value.int 3), ("s", Value.int 4)]
        (some [("a", Value.int 1), ("s", Value.int 4)]) recEmpty false)
      [("a", Value.int 1), ("s", Value.int 4)]).2.2.2.2.2.1 "a" (Value.int 3)
      (by decide) (by decide)⟩

/-- C7: an entity write carrying the `_ignore_approval` bypass marker
skips both staging hooks entirely: neither the sandbox record nor the
entity is touched. -/
theorem bypass_skips_hooks (clean : String → Value → Bool) (cfg : Config) (now : Nat)
    (authors : List User) (created : Bool) (st : State)
    (h : st.ignoreApproval = true) :
    beforeSave clean cfg now authors st = some st ∧
    afterSave clean cfg now authors created st = some st := by
  constructor
  · simp [beforeSave, h]
  · simp [afterSave, h]

/-- Witness for C7 at a concrete input. -/
theorem bypass_skips_hooks_witness :
    (State.mk [("a", Value.int 3)] (some [("a", Value.int 1)]) recEmpty
        true).ignoreApproval = true ∧
    beforeSave cleanAll (Config.mk ["a"] [] [] false false) 0 []
        (State.mk [("a", Value.int 3)] (some [("a", Value.int 1)]) recEmpty true) =
      some (State.mk [("a", Value.int 3)] (some [("a", Value.int 1)]) recEmpty true) :=
  ⟨rfl,
    (bypass_skips_hooks cleanAll (Config.mk ["a"] [] [] false false) 0 [] true
      (State.mk [("a", Value.int 3)] (some [("a", Value.int 1)]) recEmpty true) rfl).1⟩

/-- C8: calling `approve` twice with no intervening change to the record
or the entity produces the same final entity state as calling it once:
the second call succeeds and returns the state of the first call with
only the record's stamp fields rewritten — the in-memory entity and the
persisted row are exactly those the first call produced. -/
theorem approve_idempotent (clean : String → Value → Bool) (cfg : Config)
    (now now2 : Nat) (user user2 : Option User) (saveRec saveRec2 : Bool)
    (st st' : State) (hnd : (keysOf st.mem).Nodup)
    (h : approve clean cfg now user saveRec st = some st') :
    approve clean cfg now2 user2 saveRec2 st' =
      some { st' with record := approveStamp now2 user2 st'.record } ∧
    ({ st' with record := approveStamp now2 user2 st'.record } : State).mem =
      st'.mem ∧
    ({ st' with record := approveStamp now2 user2 st'.record } : State).db =
      st'.db := by
  refine ⟨?_, rfl, rfl⟩
  unfold approve at h ⊢
  cases hu : updateSource clean cfg (approveStamp now user st.record) false true
      st.mem st.db with
  | none => rw [hu] at h; exact absurd h (by simp)
  | some t =>
    rw [hu] at h
    obtain ⟨m', d', fl⟩ := t
    simp only [Option.some.injEq] at h
    subst h
    have hd' : d' = some m' :=
      updateSource_save_db clean cfg _ false st.mem st.db m' d' fl hu
    subst hd'
    have hcongr := updateSource_rec_congr clean cfg
      (approveStamp now2 user2 (approveStamp now user st.record))
      (approveStamp now user st.record) false true m' (some m') rfl rfl
    rw [hcongr]
    have hidem := updateSource_idempotent clean cfg
      (approveStamp now user st.record) st.mem st.db m' (some m') fl hnd hu
    rw [hidem]

/-- Witness for C8 at a concrete input: the first approve merges `b = 1`
and rejects `a = 0` (restored to 2); approving the resulting state again
returns it unchanged except for the re-stamped record. -/
theorem approve_idempotent_witness :
    ((keysOf memAB).Nodup ∧
      approve cleanNoZero cfgAB 5 (some (User.mk false false)) true
          (State.mk memAB (some memAB) recA false) =
        some
          (State.mk [("a", Value.int 2), ("b", Value.int 1)]
            (some [("a", Value.int 2), ("b", Value.int 1)])
            (Record.mk [("a", Value.int 0), ("b", Value.int 1)] [] (some true)
              (some (User.mk false false)) false (some 5) successInfo) true)) ∧
    approve cleanNoZero cfgAB 7 (some (User.mk true false)) true
        (State.mk [("a", Value.int 2), ("b", Value.int 1)]
          (some [("a", Value.int 2), ("b", Value.int 1)])
          (Record.mk [("a", Value.int 0), ("b", Value.int 1)] [] (some true)
            (some (User.mk false false)) false (some 5) successInfo) true) =
      some
        (State.mk [("a", Value.int 2), ("b", Value.int 1)]
          (some [("a", Value.int 2), ("b", Value.int 1)])
          (Record.mk [("a", Value.int 0), ("b", Value.int 1)] [] (some true)
            (some (User.mk true false)) false (some 7) successInfo) true) :=
  ⟨⟨by decide, by decide⟩,
    (approve_idempotent cleanNoZero cfgAB 5 7 (some (User.mk false false))
      (some (User.mk true false)) true true
      (State.mk memAB (some memAB) recA false)
      (State.mk [("a", Value.int 2), ("b", Value.int 1)]
        (some [("a", Value.int 2), ("b", Value.int 1)])
        (Record.mk [("a", Value.int 0), ("b", Value.int 1)] [] (some true)
          (some (User.mk false false)) false (some 5) successInfo) true)
      (by decide) (by decide)).1⟩

/-- C9: whenever `approve(record, actor)` returns, the record is stamped
Approved — `approved = True`, `draft = False`, the actor as moderator,
the decision timestamp, and the success message — regardless of the
outcome of applying the staged values to the entity. -/
theorem approve_record_state (clean : String → Value → Bool) (cfg : Config)
    (now : Nat) (user : Option User) (saveRec : Bool) (st st' : State)
    (h : approve clean cfg now user saveRec st = some st') :
    st'.record =
      { st.record with
        approval_date := some now
        approved := some true
        moderator := user
        draft := false
        info := successInfo } := by
  unfold approve at h
  cases hu : updateSource clean cfg (approveStamp now user st.record) false true
      st.mem st.db with
  | none => rw [hu] at h; exact absurd h (by simp)
  | some t =>
    rw [hu] at h
    obtain ⟨m', d', fl⟩ := t
    simp only [Option.some.injEq] at h
    subst h
    rfl

/-- Witness for C9: a scenario where the single staged field fails
validation (staged value 0 is rejected) and the entity keeps its prior
value, yet the record ends the call Approved. -/
theorem approve_record_state_witness :
    approve cleanNoZero (Config.mk ["a"] [] [] false false) 5 (some (User.mk false false))
        true
        (State.mk [("a", Value.int 1)] (some [("a", Value.int 1)])
          { recEmpty with sandboxFields := [("a", Value.int 0)] } false) =
      some
        (State.mk [("a", Value.int 1)] (some [("a", Value.int 1)])
          { recEmpty with
            sandboxFields := [("a", Value.int 0)]
            approved := some true
            moderator := some (User.mk false false)
            draft := false
            approval_date := some 5
            info := successInfo } true) ∧
    (State.mk [("a", Value.int 1)] (some [("a", Value.int 1)])
        { recEmpty with
          sandboxFields := [("a", Value.int 0)]
          approved := some true
          moderator := some (User.mk false false)
          draft := false
          approval_date := some 5
          info := successInfo } true).record =
      { ({ recEmpty with sandboxFields := [("a", Value.int 0)] } : Record) with
        approval_date := some 5
        approved := some true
        moderator := some (User.mk false false)
        draft := false
        info := successInfo } :=
  ⟨by decide,
    approve_record_state cleanNoZero (Config.mk ["a"] [] [] false false) 5
      (some (User.mk false false)) true
      (State.mk [("a", Value.int 1)] (some [("a", Value.int 1)])
        { recEmpty with sandboxFields := [("a", Value.int 0)] } false)
      (State.mk [("a", Value.int 1)] (some [("a", Value.int 1)])
        { recEmpty with
          sandboxFields := [("a", Value.int 0)]
          approved := some true
          moderator := some (User.mk false false)
          draft := false
          approval_date := some 5
          info := successInfo } true)
      (by decide)⟩

/-- C10: in the defaults-applying path of `_update_source`
(`default=True`), the `original` map stays empty, so whenever a
configured default value fails field validation, the validation-failure
handler's lookup of that field in the empty map is an uncaught KeyError:
the call terminates exceptionally instead of restoring the field. -/
theorem updateSource_default_keyerror (clean : String → Value → Bool) (cfg : Config)
    (rec : Record) (save : Bool) (mem : Dict) (db : Option Dict)
    (h : invalidFields clean (applyDefaults mem cfg.approval_default) ≠ []) :
    updateSource clean cfg rec true save mem db = none := by
  have hstep : mergeStep cfg rec true mem =
      some (applyDefaults mem cfg.approval_default, []) := by
    simp [mergeStep]
  unfold updateSource
  rw [hstep]
  cases hbad : invalidFields clean (applyDefaults mem cfg.approval_default) with
  | nil => exact absurd hbad h
  | cons k rest =>
    have hk : dhas (applyDefaults mem cfg.approval_default) k = true :=
      dhas_of_mem_invalid clean _ k (by rw [hbad]; exact List.mem_cons_self k rest)
    have hres : restoreFields (applyDefaults mem cfg.approval_default) [] (k :: rest) =
        none := by
      unfold restoreFields
      rw [if_pos hk]
      rfl
    simp [hbad, hres]

/-- Witness for C10: the Entry scenario configuration, where the
default `description = ""` is rejected by the validator. -/
theorem updateSource_default_keyerror_witness :
    invalidFields (fun k v => !(k = "description" ∧ v = Value.str ""))
        (applyDefaults [("description", Value.str "x")]
          (Config.mk ["description"] [] [("description", Value.str "")] false
            false).approval_default) ≠ [] ∧
    updateSource (fun k v => !(k = "description" ∧ v = Value.str ""))
        (Config.mk ["description"] [] [("description", Value.str "")] false false)
        recEmpty true true [("description", Value.str "x")]
        (some [("description", Value.str "x")]) = none :=
  ⟨by decide,
    updateSource_default_keyerror (fun k v => !(k = "description" ∧ v = Value.str ""))
      (Config.mk ["description"] [] [("description", Value.str "")] false false)
      recEmpty true [("description", Value.str "x")]
      (some [("description", Value.str "x")]) (by decide)⟩

/-- C4 (code bug): `_update_source` applies every key of the sandbox
slots to the entity, without intersecting with the configured monitored
fields: a stale key `legacy`, no longer configured, is still written to
the entity, even though the code's own `_get_valid_fields` (dead code)
excludes it. -/
theorem updateSource_applies_stale_key :
    ("legacy" ∉ (Config.mk ["content"] [] [] false false).approval_fields) ∧
    ("legacy" ∉ getValidFields (Config.mk ["content"] [] [] false false)
        [("legacy", Value.int 1), ("content", Value.str "old")]) ∧
    (updateSource cleanAll (Config.mk ["content"] [] [] false false)
        { recEmpty with
          sandboxFields := [("legacy", Value.int 99), ("content", Value.str "new")] }
        false false [("legacy", Value.int 1), ("content", Value.str "old")]
        none).map (fun t => dget t.1 "legacy") =
      some (some (Value.int 99)) := by
  refine ⟨by decide, by decide, by decide⟩

end Approval
